import Mathlib

/-
  Verification of the newc CPIO archive codec and entry container
  (cpio_archive.py).  Byte streams are modelled as `List Nat` (one Nat
  per byte), archive member names at byte level (the Python code decodes
  them to `str` and re-encodes with UTF-8, a bijection on the byte
  sequences that occur), and the filesystem inputs of `add_entry` as an
  explicit record of the values the code reads from `path` / `path.stat`.
-/

namespace CpioTools

abbrev Bytes := List Nat

/-- ASCII code of the lowercase hex digit for `d < 16`, as produced by
Python's `"%x"` formatting. -/
def hexChar (d : Nat) : Nat := if d < 10 then 48 + d else 87 + d

/-- Value of one ASCII hex digit, as accepted by Python's `int(_, 16)`. -/
def hexVal (b : Nat) : Option Nat :=
  if 48 ≤ b ∧ b ≤ 57 then some (b - 48)
  else if 97 ≤ b ∧ b ≤ 102 then some (b - 87)
  else if 65 ≤ b ∧ b ≤ 70 then some (b - 55)
  else none

/-- Big-endian hex digits with explicit fuel (`fuel > n` always holds at
every call). -/
def toHexDigitsFuel : Nat → Nat → Bytes
  | 0, _ => []
  | fuel + 1, n =>
    if n < 16 then [hexChar n]
    else toHexDigitsFuel fuel (n / 16) ++ [hexChar (n % 16)]

/-- Big-endian hex digits of `n` (at least one digit), as in `f-string`
hex formatting. -/
def toHexDigits (n : Nat) : Bytes := toHexDigitsFuel (n + 1) n

theorem toHexDigitsFuel_congr {n : Nat} :
    ∀ {f1 f2 : Nat}, n < f1 → n < f2 →
      toHexDigitsFuel f1 n = toHexDigitsFuel f2 n := by
  induction n using Nat.strong_induction_on with
  | _ n ih =>
    intro f1 f2 hf1 hf2
    match f1, f2 with
    | g1 + 1, g2 + 1 =>
      simp only [toHexDigitsFuel]
      by_cases h16 : n < 16
      · simp [h16]
      · rw [if_neg h16, if_neg h16]
        have hd : n / 16 < n := Nat.div_lt_self (by omega) (by omega)
        rw [ih (n / 16) hd (show n / 16 < g1 by omega) (show n / 16 < g2 by omega)]

/-- The defining recurrence of `toHexDigits`. -/
theorem toHexDigits_eq (n : Nat) :
    toHexDigits n =
      if n < 16 then [hexChar n]
      else toHexDigits (n / 16) ++ [hexChar (n % 16)] := by
  show toHexDigitsFuel (n + 1) n = _
  simp only [toHexDigitsFuel]
  by_cases h16 : n < 16
  · simp [h16]
  · rw [if_neg h16, if_neg h16]
    have hd : n / 16 < n := Nat.div_lt_self (by omega) (by omega)
    rw [toHexDigitsFuel_congr (show n / 16 < n by omega) (Nat.lt_succ_self _)]
    rfl

/-- The bytes of Python `f'{n:08x}'`: hex digits of `n` left-padded with
ASCII `'0'` to (at least) 8 characters. -/
def toHex8 (n : Nat) : Bytes :=
  List.replicate (8 - (toHexDigits n).length) 48 ++ toHexDigits n

def parseHexAux : Nat → Bytes → Option Nat
  | acc, [] => some acc
  | acc, b :: bs =>
    match hexVal b with
    | some d => parseHexAux (acc * 16 + d) bs
    | none => none

/-- Model of Python `int(bs, 16)` on a byte string of hex digits. -/
def parseHex (bs : Bytes) : Option Nat :=
  if bs.isEmpty then none else parseHexAux 0 bs

/-- `FileTypes` enumeration (values are the `S_IFMT` bits). -/
inductive FileTypes where
  | directory
  | named_pipe
  | regular
  | symlink
  | block_device
  | char_device
  | socket
deriving DecidableEq

/-- The `value` of each `FileTypes` member. -/
def FileTypes.value : FileTypes → Nat
  | .directory => 0o40000
  | .named_pipe => 0o10000
  | .regular => 0o100000
  | .symlink => 0o120000
  | .block_device => 0o60000
  | .char_device => 0o20000
  | .socket => 0o140000

/-- Python `FileTypes(v)`: look an enum member up by value (raises, i.e.
`none`, when `v` is not a member value). -/
def fileTypeOfValue (v : Nat) : Option FileTypes :=
  if v = 0o40000 then some .directory
  else if v = 0o10000 then some .named_pipe
  else if v = 0o100000 then some .regular
  else if v = 0o120000 then some .symlink
  else if v = 0o60000 then some .block_device
  else if v = 0o20000 then some .char_device
  else if v = 0o140000 then some .socket
  else none

/-- `ModeMask` constants. -/
def ModeMask.file_type : Nat := 0o170000
def ModeMask.permissions : Nat := 0o7777

/-- The dataclass `CpioEntry`. -/
structure CpioEntry where
  name : Bytes := []
  data : Bytes := []
  mode : Nat := 0
  file_type : FileTypes := .regular
  uid : Nat := 0
  gid : Nat := 0
  number_of_links : Nat := 0
  modification_time : Nat := 0
  size : Nat := 0
  has_crc : Bool := false
  inode : Nat := 0
  dev : Bytes := List.replicate 32 48
deriving DecidableEq

/-- `CpioEntryContainer`: an ordered mapping from names to entries plus
the `_inode_next` counter.  Keys always equal the stored entry's `name`
field at every call site, so entries are stored keyed by `name`. -/
structure CpioEntryContainer where
  items : List CpioEntry := []
  inode_next : Nat := 0
deriving DecidableEq

def CpioEntryContainer.names (c : CpioEntryContainer) : List Bytes :=
  c.items.map (·.name)

def CpioEntryContainer.lookup (c : CpioEntryContainer) (p : Bytes) : Option CpioEntry :=
  c.items.find? (fun e => decide (e.name = p))

/-- `__setitem__`: bump `_inode_next` past the inserted inode; an
existing key is overwritten in place (the `OrderedDict` keeps its
position), a new key is appended. -/
def CpioEntryContainer.setItem (c : CpioEntryContainer) (v : CpioEntry) : CpioEntryContainer :=
  { items :=
      if v.name ∈ c.names then
        c.items.map (fun e => if e.name = v.name then v else e)
      else c.items ++ [v],
    inode_next := max c.inode_next (v.inode + 1) }

/-- Python `str(pathlib.PurePosixPath(p).parent)` for relative paths:
drop empty and `"."` segments, remove the last segment, rejoin (the
empty relative path prints as `"."`). -/
def parentStr (p : Bytes) : Bytes :=
  let parts := (List.splitOn 47 p).filter (fun s => decide (s ≠ [] ∧ s ≠ [46]))
  if parts.length ≤ 1 then [46]
  else List.intercalate [47] parts.dropLast

/-- What `add_entry` reads from the filesystem about its `path`
argument: `path.exists()`, `path.stat(follow_symlinks=False)` fields,
the `is_file`/`is_symlink`/`is_dir` classification, `path.read_bytes()`
and `str(path.readlink()).encode()`. -/
structure FileInfo where
  path_exists : Bool
  st_mode : Nat
  st_uid : Nat
  st_gid : Nat
  st_nlink : Nat
  st_mtime : Nat
  is_file : Bool
  is_symlink : Bool
  is_dir : Bool
  read_bytes : Bytes
  readlink : Bytes
deriving DecidableEq

/-- `CpioEntryContainer.add_entry`.  `none` models the
`NotImplementedError` raise for unsupported file kinds; `some (b, c)`
models a normal return of `b` with resulting container `c`. -/
def CpioEntryContainer.add_entry (c : CpioEntryContainer) (fi : FileInfo)
    (archive_path : Bytes) : Option (Bool × CpioEntryContainer) :=
  if fi.path_exists = false then some (false, c)
  else if parentStr archive_path ∉ c.names then some (false, c)
  else
    let entry : CpioEntry :=
      { name := archive_path, mode := fi.st_mode, uid := fi.st_uid,
        gid := fi.st_gid, number_of_links := fi.st_nlink,
        modification_time := fi.st_mtime,
        inode :=
          match c.lookup archive_path with
          | some prev => prev.inode
          | none => c.inode_next,
        dev :=
          match c.lookup archive_path with
          | some prev => prev.dev
          | none => List.replicate 32 48 }
    let entry? : Option CpioEntry :=
      if fi.is_file then
        some { entry with file_type := .regular, data := fi.read_bytes }
      else if fi.is_symlink then
        some { entry with file_type := .symlink, data := fi.readlink }
      else if fi.is_dir then
        some { entry with file_type := .directory }
      else none
    match entry? with
    | none => none
    | some e =>
      some (true, c.setItem { e with size := e.data.length })

/-- `CpioEntryContainer.delete_entry`. -/
def CpioEntryContainer.delete_entry (c : CpioEntryContainer) (archive_path : Bytes) :
    Bool × CpioEntryContainer :=
  if archive_path ∈ c.names then
    (true, { items := c.items.filter (fun e => decide (e.name ≠ archive_path)),
             inode_next := c.inode_next })
  else (false, c)

/-- `CpioEntryContainer.modify_entry`.  `update_data` carries the bytes
that `update_data.read()` would return. -/
def CpioEntryContainer.modify_entry (c : CpioEntryContainer) (archive_path : Bytes)
    (update_uid update_gid update_mode : Option Nat) (update_data : Option Bytes) :
    Bool × CpioEntryContainer :=
  match c.lookup archive_path with
  | none => (false, c)
  | some e0 =>
    let e1 : CpioEntry :=
      match update_data with
      | some d =>
        if e0.file_type = FileTypes.regular then
          { e0 with data := d, size := d.length }
        else e0
      | none => e0
    let u1 : Bool :=
      match update_data with
      | some _ => decide (e0.file_type = FileTypes.regular)
      | none => false
    let e2 : CpioEntry :=
      match update_uid with
      | some u => { e1 with uid := u }
      | none => e1
    let e3 : CpioEntry :=
      match update_gid with
      | some g => { e2 with gid := g }
      | none => e2
    let e4 : CpioEntry :=
      match update_mode with
      | some m => { e3 with mode := m }
      | none => e3
    (u1 || update_uid.isSome || update_gid.isSome || update_mode.isSome,
     { items := c.items.map (fun e => if e.name = archive_path then e4 else e),
       inode_next := c.inode_next })

/-- The fixed 110-byte `CpioNewcHeader` record, one field per slot (all
fields raw byte strings, as in the `BinarySerializable` class). -/
structure CpioNewcHeader where
  c_magic : Bytes
  c_ino : Bytes
  c_mode : Bytes
  c_uid : Bytes
  c_gid : Bytes
  c_nlink : Bytes
  c_mtime : Bytes
  c_filesize : Bytes
  c_dev : Bytes
  c_namesize : Bytes
  c_check : Bytes
deriving DecidableEq

/-- Serialization: the fields concatenated in declaration order. -/
def CpioNewcHeader.serialize (h : CpioNewcHeader) : Bytes :=
  h.c_magic ++ h.c_ino ++ h.c_mode ++ h.c_uid ++ h.c_gid ++ h.c_nlink ++
  h.c_mtime ++ h.c_filesize ++ h.c_dev ++ h.c_namesize ++ h.c_check

/-- Deserialization: split 110 bytes into the fixed-width fields; fails
(a format error) when fewer than 110 bytes remain.  Returns the header
and the rest of the stream. -/
def CpioNewcHeader.deserialize (s : Bytes) : Option (CpioNewcHeader × Bytes) :=
  if 110 ≤ s.length then
    let magic := s.take 6; let s := s.drop 6
    let ino := s.take 8; let s := s.drop 8
    let mode := s.take 8; let s := s.drop 8
    let uid := s.take 8; let s := s.drop 8
    let gid := s.take 8; let s := s.drop 8
    let nlink := s.take 8; let s := s.drop 8
    let mtime := s.take 8; let s := s.drop 8
    let filesize := s.take 8; let s := s.drop 8
    let dev := s.take 32; let s := s.drop 32
    let namesize := s.take 8; let s := s.drop 8
    let check := s.take 8; let s := s.drop 8
    some ({ c_magic := magic, c_ino := ino, c_mode := mode, c_uid := uid,
            c_gid := gid, c_nlink := nlink, c_mtime := mtime,
            c_filesize := filesize, c_dev := dev, c_namesize := namesize,
            c_check := check }, s)
  else none

/-- The bytes of `'TRAILER!!!'`. -/
def trailer_signature : Bytes := [84, 82, 65, 73, 76, 69, 82, 33, 33, 33]

/-- The bytes of the magic `b'070701'` (no checksum). -/
def magicNoCrc : Bytes := [48, 55, 48, 55, 48, 49]

/-- The bytes of the magic `b'070702'` (checksum present). -/
def magicCrc : Bytes := [48, 55, 48, 55, 48, 50]

/-- Padding length `(4 - (n % 4)) % 4` used by `__handle_padding` on
both the read and the write side. -/
def padLen (n : Nat) : Nat := (4 - n % 4) % 4

/-- Python `sum(x for x in data)`. -/
def sumBytes (l : Bytes) : Nat := l.sum

/-- The header that `CpioArchive.write` builds for one entry. -/
def entryHeader (e : CpioEntry) : CpioNewcHeader :=
  { c_magic := if e.has_crc then magicCrc else magicNoCrc,
    c_check :=
      if e.has_crc then toHex8 (sumBytes e.data &&& 0xFFFFFFFF)
      else List.replicate 8 48,
    c_filesize := toHex8 e.data.length,
    c_namesize := toHex8 (e.name.length + 1),
    c_mode := toHex8 (e.mode ||| e.file_type.value),
    c_uid := toHex8 e.uid,
    c_gid := toHex8 e.gid,
    c_nlink := toHex8 e.number_of_links,
    c_mtime := toHex8 e.modification_time,
    c_ino := toHex8 e.inode,
    c_dev := e.dev }

/-- The trailer header built at the end of `CpioArchive.write`. -/
def trailerHeader : CpioNewcHeader :=
  { c_magic := magicNoCrc,
    c_check := List.replicate 8 48,
    c_filesize := List.replicate 8 48,
    c_namesize := toHex8 (trailer_signature.length + 1),
    c_mode := List.replicate 8 48,
    c_uid := List.replicate 8 48,
    c_gid := List.replicate 8 48,
    c_nlink := List.replicate 8 48,
    c_mtime := List.replicate 8 48,
    c_ino := List.replicate 8 48,
    c_dev := List.replicate 32 48 }

/-- One entry's block in `CpioArchive.write`: serialized header,
NUL-terminated name, alignment padding, payload, alignment padding.
`off` is `bytes_written` on entry (the counter advances by the header
class size 110, the name length, and the padding counts, exactly as in
the code).  Returns the block's bytes and the updated counter. -/
def writeEntryBlock (off : Nat) (e : CpioEntry) : Bytes × Nat :=
  let hb := (entryHeader e).serialize
  let nm := e.name ++ [0]
  let o1 := off + 110 + nm.length
  let p1 := padLen o1
  let o2 := o1 + p1 + e.data.length
  let p2 := padLen o2
  (hb ++ nm ++ List.replicate p1 0 ++ e.data ++ List.replicate p2 0, o2 + p2)

/-- The trailer block written after all entries. -/
def writeTrailerBlock (off : Nat) : Bytes × Nat :=
  let hb := trailerHeader.serialize
  let nm := trailer_signature ++ [0]
  let o1 := off + 110 + nm.length
  let p1 := padLen o1
  (hb ++ nm ++ List.replicate p1 0, o1 + p1)

/-- The loop body of `CpioArchive.write` over the container's values,
followed by the trailer. -/
def writeLoop (off : Nat) : List CpioEntry → Bytes
  | [] => (writeTrailerBlock off).1
  | e :: es => (writeEntryBlock off e).1 ++ writeLoop (writeEntryBlock off e).2 es

/-- `CpioArchive.write`: serialize a container into a byte stream. -/
def cpioWrite (c : CpioEntryContainer) : Bytes := writeLoop 0 c.items

/-- The values of the `bytes_written` counter immediately after each
`__handle_padding` call during `CpioArchive.write` (two per entry: after
header+name, after payload; one after the trailer record). -/
def writeCkLoop (off : Nat) : List CpioEntry → List Nat
  | [] =>
    let o1 := off + 110 + (trailer_signature.length + 1)
    [o1 + padLen o1]
  | e :: es =>
    let o1 := off + 110 + (e.name.length + 1)
    let o2 := o1 + padLen o1
    let o3 := o2 + e.data.length
    let o4 := o3 + padLen o3
    o2 :: o4 :: writeCkLoop o4 es

/-- The checkpoint counters for a whole `CpioArchive.write` run. -/
def writeCheckpoints (c : CpioEntryContainer) : List Nat := writeCkLoop 0 c.items

/-- Magic recognition in `CpioArchive.open`: `b'070701'` means no CRC,
`b'070702'` means CRC, anything else is a fatal `ValueError`. -/
def decodeMagic (m : Bytes) : Option Bool :=
  if m = magicNoCrc then some false
  else if m = magicCrc then some true
  else none

/-- One iteration of the `CpioArchive.open` loop at stream position
`pos` (the `data_processed` counter).  Returns `none` on any fatal
error, `some (none, rest, pos')` when the trailer was read, and
`some (some entry, rest, pos')` for an ordinary entry. -/
def parseRecord (s : Bytes) (pos : Nat) :
    Option (Option CpioEntry × Bytes × Nat) := do
  let (h, rest) ← CpioNewcHeader.deserialize s
  let has_crc ← decodeMagic h.c_magic
  let data_size ← parseHex h.c_filesize
  let name_size ← parseHex h.c_namesize
  let mode_raw ← parseHex h.c_mode
  let inode ← parseHex h.c_ino
  let uid ← parseHex h.c_uid
  let gid ← parseHex h.c_gid
  let nlinks ← parseHex h.c_nlink
  let mtime ← parseHex h.c_mtime
  let pos := pos + 110
  let name := (rest.take name_size).dropLast
  let rest := rest.drop name_size
  let pos := pos + name_size
  let pad := padLen pos
  let rest := rest.drop pad
  let pos := pos + pad
  if name = trailer_signature then
    return (none, rest, pos)
  else
    let data := rest.take data_size
    if data.length < data_size then none
    else do
      let ft ← fileTypeOfValue (mode_raw &&& ModeMask.file_type)
      let entry : CpioEntry :=
        { name := name, data := data,
          mode := mode_raw &&& ModeMask.permissions,
          file_type := ft, uid := uid, gid := gid,
          number_of_links := nlinks, modification_time := mtime,
          size := data_size, has_crc := has_crc, inode := inode,
          dev := h.c_dev }
      let rest := rest.drop data_size
      let pos := pos + data_size
      let pad2 := padLen pos
      return (some entry, rest.drop pad2, pos + pad2)

/-- The `while True` loop of `CpioArchive.open`, with explicit fuel (the
loop consumes at least 110 bytes per iteration, so `s.length + 1` fuel
is always enough). -/
def openLoop : Nat → Bytes → Nat → CpioEntryContainer → Option CpioEntryContainer
  | 0, _, _, _ => none
  | fuel + 1, s, pos, acc =>
    match parseRecord s pos with
    | none => none
    | some (none, _, _) => some acc
    | some (some e, rest, pos') => openLoop fuel rest pos' (acc.setItem e)

/-- `CpioArchive.open`: parse a byte stream into a container. -/
def cpioOpen (s : Bytes) : Option CpioEntryContainer :=
  openLoop (s.length + 1) s 0 {}

/-! Lemmas about the hex rendering and parsing helpers. -/

/-- Lowercase hex digit character predicate (ASCII `0`-`9` or `a`-`f`). -/
def isHexLower (b : Nat) : Prop := (48 ≤ b ∧ b ≤ 57) ∨ (97 ≤ b ∧ b ≤ 102)

instance (b : Nat) : Decidable (isHexLower b) := by
  unfold isHexLower; infer_instance

theorem hexVal_hexChar {d : Nat} (h : d < 16) : hexVal (hexChar d) = some d := by
  interval_cases d <;> rfl

theorem hexVal_lt {b d : Nat} (h : hexVal b = some d) : d < 16 := by
  unfold hexVal at h
  split at h
  · simp only [Option.some.injEq] at h; omega
  · split at h
    · simp only [Option.some.injEq] at h; omega
    · split at h
      · simp only [Option.some.injEq] at h; omega
      · exact absurd h (by simp)

theorem isHexLower_hexChar {d : Nat} (h : d < 16) : isHexLower (hexChar d) := by
  unfold hexChar isHexLower; split <;> omega

theorem toHexDigits_ne_nil (n : Nat) : toHexDigits n ≠ [] := by
  rw [toHexDigits_eq]
  split <;> simp

theorem toHexDigits_mem {n b : Nat} (h : b ∈ toHexDigits n) : isHexLower b := by
  induction n using Nat.strong_induction_on with
  | _ n ih =>
    rw [toHexDigits_eq] at h
    split at h
    · simp only [List.mem_singleton] at h
      subst h; exact isHexLower_hexChar (by omega)
    · rename_i hn
      rcases List.mem_append.mp h with h' | h'
      · exact ih (n / 16) (Nat.div_lt_self (by omega) (by omega)) h'
      · simp only [List.mem_singleton] at h'
        subst h'; exact isHexLower_hexChar (Nat.mod_lt _ (by omega))

theorem parseHexAux_append (acc : Nat) (l₁ l₂ : Bytes) :
    parseHexAux acc (l₁ ++ l₂) =
      (parseHexAux acc l₁).bind (fun a => parseHexAux a l₂) := by
  induction l₁ generalizing acc with
  | nil => rfl
  | cons b bs ih =>
    simp only [List.cons_append, parseHexAux]
    cases hexVal b <;> simp [ih]

theorem parseHexAux_replicate48 (acc k : Nat) :
    parseHexAux acc (List.replicate k 48) = some (acc * 16 ^ k) := by
  induction k generalizing acc with
  | zero => simp [parseHexAux]
  | succ k ih =>
    rw [List.replicate_succ]
    simp only [parseHexAux, hexVal]
    norm_num
    rw [ih]
    ring_nf

theorem parseHexAux_toHexDigits (n : Nat) :
    ∀ acc, parseHexAux acc (toHexDigits n) =
      some (acc * 16 ^ (toHexDigits n).length + n) := by
  induction n using Nat.strong_induction_on with
  | _ n ih =>
    intro acc
    rw [toHexDigits_eq]
    split
    · rename_i hlt
      simp [parseHexAux, hexVal_hexChar hlt]
    · rename_i hge
      rw [parseHexAux_append]
      rw [ih (n / 16) (Nat.div_lt_self (by omega) (by omega)) acc]
      rw [Option.some_bind]
      simp only [parseHexAux, hexVal_hexChar (Nat.mod_lt n (by omega))]
      rw [List.length_append]
      simp only [List.length_singleton]
      congr 1
      have hnm : 16 * (n / 16) + n % 16 = n := Nat.div_add_mod n 16
      calc (acc * 16 ^ (toHexDigits (n / 16)).length + n / 16) * 16 + n % 16
          = acc * (16 ^ (toHexDigits (n / 16)).length * 16) +
              (16 * (n / 16) + n % 16) := by ring
        _ = acc * 16 ^ ((toHexDigits (n / 16)).length + 1) + n := by
            rw [hnm, pow_succ]

theorem parseHex_toHex8 (n : Nat) : parseHex (toHex8 n) = some n := by
  unfold parseHex toHex8
  rw [if_neg (by simp [toHexDigits_ne_nil])]
  rw [parseHexAux_append, parseHexAux_replicate48]
  simp [parseHexAux_toHexDigits]

theorem toHexDigits_length_le {n k : Nat} (hk : 1 ≤ k) (h : n < 16 ^ k) :
    (toHexDigits n).length ≤ k := by
  induction k generalizing n with
  | zero => omega
  | succ k ih =>
    rw [toHexDigits_eq]
    split
    · simp
    · rename_i hge
      rw [List.length_append, List.length_singleton]
      have hk1 : 1 ≤ k := by
        by_contra hc
        have : k = 0 := by omega
        subst this
        simp only [zero_add, pow_one] at h
        omega
      have : n / 16 < 16 ^ k := by
        rw [Nat.div_lt_iff_lt_mul (by omega)]
        calc n < 16 ^ (k + 1) := h
        _ = 16 ^ k * 16 := by ring
      have := ih hk1 this
      omega

theorem toHex8_length {n : Nat} (h : n < 4294967296) : (toHex8 n).length = 8 := by
  unfold toHex8
  rw [List.length_append, List.length_replicate]
  have : (toHexDigits n).length ≤ 8 :=
    toHexDigits_length_le (by omega) (by norm_num; omega)
  omega

theorem toHex8_mem {n b : Nat} (h : b ∈ toHex8 n) : isHexLower b := by
  unfold toHex8 at h
  rcases List.mem_append.mp h with h' | h'
  · have := List.eq_of_mem_replicate h'
    subst this
    left; omega
  · exact toHexDigits_mem h'

theorem parseHexAux_lt {acc n : Nat} {l : Bytes} (h : parseHexAux acc l = some n) :
    n < (acc + 1) * 16 ^ l.length := by
  induction l generalizing acc with
  | nil =>
    simp only [parseHexAux, Option.some.injEq] at h
    subst h
    simp only [List.length_nil, pow_zero, mul_one]
    omega
  | cons b bs ih =>
    simp only [parseHexAux] at h
    cases hv : hexVal b with
    | none => rw [hv] at h; exact absurd h (by simp)
    | some d =>
      rw [hv] at h
      have hd : d < 16 := hexVal_lt hv
      have := ih h
      calc n < (acc * 16 + d + 1) * 16 ^ bs.length := this
      _ ≤ ((acc + 1) * 16) * 16 ^ bs.length := by
          have : acc * 16 + d + 1 ≤ (acc + 1) * 16 := by omega
          exact Nat.mul_le_mul_right _ this
      _ = (acc + 1) * 16 ^ (b :: bs).length := by
          rw [List.length_cons]; ring

theorem parseHex_lt {n : Nat} {l : Bytes} (h : parseHex l = some n) :
    n < 16 ^ l.length := by
  unfold parseHex at h
  split at h
  · exact absurd h (by simp)
  · have := parseHexAux_lt h
    simpa using this

/-! Bitwise facts about the mode masks (`0o7777 = 4095`,
`0o170000 = 61440`) and the file-type bits. -/

theorem testBit_4095 (i : Nat) : Nat.testBit 4095 i = decide (i < 12) := by
  have h : (4095 : Nat) = 2 ^ 12 - 1 := by norm_num
  rw [h, Nat.testBit_two_pow_sub_one]

theorem testBit_hi_false {m i : Nat} (hm : m < 4096) (hi : 12 ≤ i) :
    Nat.testBit m i = false := by
  apply Nat.testBit_lt_two_pow
  calc m < 4096 := hm
  _ = 2 ^ 12 := by norm_num
  _ ≤ 2 ^ i := Nat.pow_le_pow_right (by omega) hi

theorem testBit_61440_low {i : Nat} (hi : i < 12) :
    Nat.testBit 61440 i = false := by
  interval_cases i <;> decide

theorem and_61440_of_lt {m : Nat} (h : m < 4096) : m &&& 61440 = 0 := by
  apply Nat.eq_of_testBit_eq
  intro i
  simp only [Nat.testBit_and, Nat.zero_testBit]
  by_cases hi : i < 12
  · simp [testBit_61440_low hi]
  · have h4 : Nat.testBit m i = false := testBit_hi_false h (by omega)
    simp [h4]

theorem or_and_4095 {m t : Nat} (hm : m < 4096) (ht : t &&& 4095 = 0) :
    (m ||| t) &&& 4095 = m := by
  apply Nat.eq_of_testBit_eq
  intro i
  simp only [Nat.testBit_and, Nat.testBit_or]
  by_cases hi : i < 12
  · have h1 : Nat.testBit 4095 i = true := by rw [testBit_4095]; simp [hi]
    have h2 : Nat.testBit t i = false := by
      have h3 := congrArg (fun x => Nat.testBit x i) ht
      simp only [Nat.testBit_and, Nat.zero_testBit, h1, Bool.and_true] at h3
      exact h3
    rw [h1, h2, Bool.or_false, Bool.and_true]
  · have h1 : Nat.testBit 4095 i = false := by rw [testBit_4095]; simp [hi]
    have h4 : Nat.testBit m i = false := testBit_hi_false hm (by omega)
    rw [h1, h4, Bool.and_false]

theorem or_and_61440 {m t : Nat} (hm : m < 4096) (ht : t &&& 61440 = t) :
    (m ||| t) &&& 61440 = t := by
  apply Nat.eq_of_testBit_eq
  intro i
  have ht' : (Nat.testBit t i && Nat.testBit 61440 i) = Nat.testBit t i := by
    have h3 := congrArg (fun x => Nat.testBit x i) ht
    simpa only [Nat.testBit_and] using h3
  simp only [Nat.testBit_and, Nat.testBit_or]
  by_cases hi : i < 12
  · rw [testBit_61440_low hi] at ht' ⊢
    rw [Bool.and_false] at ht' ⊢
    exact ht'
  · have h4 : Nat.testBit m i = false := testBit_hi_false hm (by omega)
    rw [h4, Bool.false_or]
    exact ht'

theorem value_and_4095 (ft : FileTypes) : ft.value &&& 4095 = 0 := by
  cases ft <;> decide

theorem value_and_61440 (ft : FileTypes) : ft.value &&& 61440 = ft.value := by
  cases ft <;> decide

theorem value_lt (ft : FileTypes) : ft.value < 4294967296 := by
  cases ft <;> decide

theorem fileTypeOfValue_value (ft : FileTypes) : fileTypeOfValue ft.value = some ft := by
  cases ft <;> decide

theorem and_mask32_eq_mod (x : Nat) : x &&& 4294967295 = x % 4294967296 := by
  have h : (4294967295 : Nat) = 2 ^ 32 - 1 := by norm_num
  have h2 : (4294967296 : Nat) = 2 ^ 32 := by norm_num
  rw [h, h2, Nat.and_pow_two_sub_one_eq_mod]

theorem and_mask32_lt (x : Nat) : x &&& 4294967295 < 4294967296 := by
  rw [and_mask32_eq_mod]
  exact Nat.mod_lt _ (by omega)

/-! Header serialization lemmas. -/

/-- Field widths of a well-formed header (6, 8×7, 32, 8, 8 bytes). -/
def headerWf (h : CpioNewcHeader) : Prop :=
  h.c_magic.length = 6 ∧ h.c_ino.length = 8 ∧ h.c_mode.length = 8 ∧
  h.c_uid.length = 8 ∧ h.c_gid.length = 8 ∧ h.c_nlink.length = 8 ∧
  h.c_mtime.length = 8 ∧ h.c_filesize.length = 8 ∧ h.c_dev.length = 32 ∧
  h.c_namesize.length = 8 ∧ h.c_check.length = 8

instance (h : CpioNewcHeader) : Decidable (headerWf h) := by
  unfold headerWf; infer_instance

theorem serialize_length {h : CpioNewcHeader} (hw : headerWf h) :
    h.serialize.length = 110 := by
  obtain ⟨h1, h2, h3, h4, h5, h6, h7, h8, h9, h10, h11⟩ := hw
  simp [CpioNewcHeader.serialize, h1, h2, h3, h4, h5, h6, h7, h8, h9, h10, h11]

theorem deserialize_serialize {h : CpioNewcHeader} (hw : headerWf h) (rest : Bytes) :
    CpioNewcHeader.deserialize (h.serialize ++ rest) = some (h, rest) := by
  obtain ⟨h1, h2, h3, h4, h5, h6, h7, h8, h9, h10, h11⟩ := hw
  unfold CpioNewcHeader.deserialize CpioNewcHeader.serialize
  rw [if_pos (by simp [h1, h2, h3, h4, h5, h6, h7, h8, h9, h10, h11]; omega)]
  simp only [List.append_assoc]
  rw [List.take_left' h1, List.drop_left' h1]
  rw [List.take_left' h2, List.drop_left' h2]
  rw [List.take_left' h3, List.drop_left' h3]
  rw [List.take_left' h4, List.drop_left' h4]
  rw [List.take_left' h5, List.drop_left' h5]
  rw [List.take_left' h6, List.drop_left' h6]
  rw [List.take_left' h7, List.drop_left' h7]
  rw [List.take_left' h8, List.drop_left' h8]
  rw [List.take_left' h9, List.drop_left' h9]
  rw [List.take_left' h10, List.drop_left' h10]
  rw [List.take_left' h11, List.drop_left' h11]

/-! Well-formedness of entries, as guaranteed for every entry
constructed by `CpioArchive.open`. -/

def wfEntry (e : CpioEntry) : Prop :=
  e.size = e.data.length ∧
  e.mode < 4096 ∧
  e.uid < 4294967296 ∧
  e.gid < 4294967296 ∧
  e.number_of_links < 4294967296 ∧
  e.modification_time < 4294967296 ∧
  e.inode < 4294967296 ∧
  e.data.length < 4294967296 ∧
  e.name.length + 1 < 4294967296 ∧
  e.dev.length = 32 ∧
  e.name ≠ trailer_signature

instance (e : CpioEntry) : Decidable (wfEntry e) := by
  unfold wfEntry; infer_instance

theorem entryHeader_wf {e : CpioEntry} (hw : wfEntry e) : headerWf (entryHeader e) := by
  obtain ⟨w1, w2, w3, w4, w5, w6, w7, w8, w9, w10, w11⟩ := hw
  refine ⟨?_, ?_, ?_, ?_, ?_, ?_, ?_, ?_, ?_, ?_, ?_⟩ <;>
    simp only [entryHeader]
  · cases e.has_crc <;> rfl
  · exact toHex8_length w7
  · refine toHex8_length ?_
    have h32 : (2 : Nat) ^ 32 = 4294967296 := by norm_num
    have hm32 : e.mode < 2 ^ 32 := by omega
    have hv32 : e.file_type.value < 2 ^ 32 := by
      have := value_lt e.file_type; omega
    have h3 := Nat.or_lt_two_pow hm32 hv32
    omega
  · exact toHex8_length w3
  · exact toHex8_length w4
  · exact toHex8_length w5
  · exact toHex8_length w6
  · exact toHex8_length w8
  · exact w10
  · exact toHex8_length w9
  · cases hc : e.has_crc
    · rfl
    · simp only [if_pos rfl]
      exact toHex8_length (and_mask32_lt _)

theorem trailerHeader_wf : headerWf trailerHeader := by decide

/-! Record-level round trip: parsing one block produced by the writer. -/

theorem decodeMagic_entry (b : Bool) :
    decodeMagic (if b then magicCrc else magicNoCrc) = some b := by
  cases b <;> rfl

theorem parseRecord_writeTrailerBlock (off : Nat) (rest : Bytes) :
    parseRecord ((writeTrailerBlock off).1 ++ rest) off =
      some (none, rest, (writeTrailerBlock off).2) := by
  simp only [writeTrailerBlock]
  rw [List.append_assoc, List.append_assoc]
  rw [parseRecord, deserialize_serialize trailerHeader_wf]
  simp only [Option.bind_eq_bind, Option.pure_def, Option.some_bind]
  simp only [trailerHeader, decodeMagic, reduceIte, Option.some_bind,
    parseHex_toHex8, trailer_signature]
  rw [show parseHex (List.replicate 8 48) = some 0 by decide]
  simp only [Option.some_bind]
  rw [List.take_left' (by simp), List.drop_left' (by simp)]
  rw [List.dropLast_concat]
  rw [if_pos rfl]
  rw [List.drop_left' (by simp [padLen])]
  simp [List.length_append]

theorem parseRecord_writeEntryBlock {e : CpioEntry} (hw : wfEntry e)
    (off : Nat) (rest : Bytes) :
    parseRecord ((writeEntryBlock off e).1 ++ rest) off =
      some (some e, rest, (writeEntryBlock off e).2) := by
  obtain ⟨w1, w2, w3, w4, w5, w6, w7, w8, w9, w10, w11⟩ := hw
  simp only [writeEntryBlock]
  rw [List.append_assoc, List.append_assoc, List.append_assoc, List.append_assoc]
  rw [parseRecord, deserialize_serialize (entryHeader_wf ⟨w1, w2, w3, w4, w5, w6,
    w7, w8, w9, w10, w11⟩)]
  simp only [Option.bind_eq_bind, Option.pure_def, Option.some_bind]
  simp only [entryHeader, decodeMagic_entry, Option.some_bind, parseHex_toHex8]
  rw [List.take_left' (by simp), List.drop_left' (by simp)]
  rw [List.dropLast_concat]
  rw [if_neg w11]
  rw [List.drop_left' (by simp [padLen, List.length_append])]
  rw [List.take_left' rfl]
  rw [if_neg (by omega)]
  simp only [ModeMask.file_type, ModeMask.permissions]
  rw [or_and_61440 w2 (value_and_61440 e.file_type), fileTypeOfValue_value,
    Option.some_bind]
  rw [List.drop_left' rfl]
  rw [List.drop_left' (by simp [padLen, List.length_append])]
  rw [or_and_4095 w2 (value_and_4095 e.file_type)]
  rw [← w1]
  simp only [List.length_append, List.length_singleton]

theorem openLoop_writeLoop (es : List CpioEntry) :
    ∀ (off : Nat) (acc : CpioEntryContainer) (fuel : Nat),
      (∀ e ∈ es, wfEntry e) → es.length + 1 ≤ fuel →
      openLoop fuel (writeLoop off es) off acc =
        some (es.foldl CpioEntryContainer.setItem acc) := by
  induction es with
  | nil =>
    intro off acc fuel _ hfuel
    match fuel, hfuel with
    | f + 1, _ =>
      show openLoop (f + 1) (writeLoop off []) off acc = some acc
      simp only [writeLoop, openLoop]
      rw [show (writeTrailerBlock off).1 = (writeTrailerBlock off).1 ++ [] by simp]
      rw [parseRecord_writeTrailerBlock]
  | cons e es ih =>
    intro off acc fuel hwf hfuel
    match fuel, hfuel with
    | f + 1, hf =>
      simp only [writeLoop, openLoop]
      rw [parseRecord_writeEntryBlock (hwf e (by simp)) off (writeLoop (writeEntryBlock off e).2 es)]
      simp only [List.foldl_cons]
      exact ih (writeEntryBlock off e).2 (acc.setItem e) f
        (fun x hx => hwf x (by simp [hx])) (by simpa using hf)

theorem writeLoop_length (es : List CpioEntry) :
    ∀ off : Nat, es.length ≤ (writeLoop off es).length := by
  induction es with
  | nil => simp
  | cons e es ih =>
    intro off
    simp only [writeLoop, List.length_cons, List.length_append]
    have h1 : 1 ≤ ((writeEntryBlock off e).1).length := by
      simp only [writeEntryBlock, List.length_append, List.length_singleton]
      omega
    have h2 := ih (writeEntryBlock off e).2
    omega

/-! Every entry constructed by the parser is well-formed. -/

theorem and_4095_lt (x : Nat) : x &&& 4095 < 4096 := by
  have h := Nat.and_lt_two_pow x (show 4095 < 2 ^ 12 by norm_num)
  norm_num at h
  exact h

theorem parseHex8_lt {l : Bytes} {n : Nat} (hl : l.length = 8)
    (h : parseHex l = some n) : n < 4294967296 := by
  have := parseHex_lt h
  rw [hl] at this
  norm_num at this
  exact this

theorem deserialize_wf {s : Bytes} {h : CpioNewcHeader} {r : Bytes}
    (hd : CpioNewcHeader.deserialize s = some (h, r)) : headerWf h := by
  unfold CpioNewcHeader.deserialize at hd
  split at hd
  · rename_i hlen
    simp only [Option.some.injEq, Prod.mk.injEq] at hd
    obtain ⟨hh, _⟩ := hd
    subst hh
    refine ⟨?_, ?_, ?_, ?_, ?_, ?_, ?_, ?_, ?_, ?_, ?_⟩ <;>
      simp only [List.length_take, List.length_drop] <;> omega
  · exact absurd hd (by simp)

theorem parseRecord_entry_wf {s : Bytes} {pos : Nat} {e : CpioEntry}
    {rest : Bytes} {pos' : Nat}
    (h : parseRecord s pos = some (some e, rest, pos')) : wfEntry e := by
  unfold parseRecord at h
  simp only [Option.bind_eq_bind, Option.pure_def, Option.bind_eq_some] at h
  obtain ⟨⟨h1, rest1⟩, hdes, h⟩ := h
  obtain ⟨crc, hcrc, h⟩ := h
  obtain ⟨dsz, hdsz, h⟩ := h
  obtain ⟨nsz, hnsz, h⟩ := h
  obtain ⟨mraw, hmraw, h⟩ := h
  obtain ⟨ino, hino, h⟩ := h
  obtain ⟨uid, huid, h⟩ := h
  obtain ⟨gid, hgid, h⟩ := h
  obtain ⟨nl, hnl, h⟩ := h
  obtain ⟨mt, hmt, h⟩ := h
  obtain ⟨hw1, hw2, hw3, hw4, hw5, hw6, hw7, hw8, hw9, hw10, hw11⟩ := deserialize_wf hdes
  split at h
  · exact absurd h (by simp)
  · rename_i hname
    split at h
    · exact absurd h (by simp)
    · rename_i hlen
      simp only [Option.bind_eq_some] at h
      obtain ⟨ft, hft, h⟩ := h
      simp only [Option.some.injEq, Prod.mk.injEq] at h
      obtain ⟨he, -, -⟩ := h
      subst he
      have hdsz' : dsz < 4294967296 := parseHex8_lt hw8 hdsz
      have hnsz' : nsz < 4294967296 := parseHex8_lt hw10 hnsz
      refine ⟨?_, ?_, ?_, ?_, ?_, ?_, ?_, ?_, ?_, ?_, ?_⟩
      · simp only [List.length_take] at hlen ⊢
        omega
      · exact and_4095_lt mraw
      · exact parseHex8_lt hw4 huid
      · exact parseHex8_lt hw5 hgid
      · exact parseHex8_lt hw6 hnl
      · exact parseHex8_lt hw7 hmt
      · exact parseHex8_lt hw2 hino
      · simp only [List.length_take] at hlen ⊢
        omega
      · simp only [List.length_dropLast, List.length_take]
        omega
      · exact hw9
      · exact hname

/-! Container invariants under `__setitem__`. -/

theorem names_setItem (c : CpioEntryContainer) (v : CpioEntry) :
    (c.setItem v).names =
      if v.name ∈ c.names then c.names else c.names ++ [v.name] := by
  simp only [CpioEntryContainer.setItem, CpioEntryContainer.names]
  split
  · rw [List.map_map]
    apply List.map_congr_left
    intro a _
    simp only [Function.comp_apply]
    split
    · rename_i hn; simp [hn]
    · rfl
  · simp

theorem mem_items_setItem {c : CpioEntryContainer} {v x : CpioEntry}
    (h : x ∈ (c.setItem v).items) : x ∈ c.items ∨ x = v := by
  simp only [CpioEntryContainer.setItem] at h
  split at h
  · rcases List.mem_map.mp h with ⟨a, ha, hx⟩
    by_cases hn : a.name = v.name
    · right
      rw [if_pos hn] at hx
      exact hx.symm
    · left
      rw [if_neg hn] at hx
      exact hx ▸ ha
  · rcases List.mem_append.mp h with h' | h'
    · exact Or.inl h'
    · right; simpa using h'

theorem nodup_names_setItem {c : CpioEntryContainer} (v : CpioEntry)
    (h : c.names.Nodup) : ((c.setItem v).names).Nodup := by
  rw [names_setItem]
  split
  · exact h
  · rename_i hmem
    simp only [List.nodup_append]
    exact ⟨h, List.nodup_singleton _, by simpa [List.Disjoint] using fun a ha hb => hmem (by simpa [hb] using ha)⟩

/-- Generic invariant preservation along the `open` loop. -/
theorem openLoop_inv (P : CpioEntryContainer → Prop)
    (hP : ∀ c e, wfEntry e → P c → P (c.setItem e)) :
    ∀ (fuel : Nat) (s : Bytes) (pos : Nat) (acc c : CpioEntryContainer),
      openLoop fuel s pos acc = some c → P acc → P c := by
  intro fuel
  induction fuel with
  | zero => intro s pos acc c h; exact absurd h (by simp [openLoop])
  | succ f ih =>
    intro s pos acc c h hacc
    rw [openLoop] at h
    cases hpr : parseRecord s pos with
    | none => rw [hpr] at h; exact absurd h (by simp)
    | some v =>
      rw [hpr] at h
      obtain ⟨oe, rest, pos'⟩ := v
      cases oe with
      | none =>
        simp only [Option.some.injEq] at h
        subst h
        exact hacc
      | some e =>
        exact ih _ _ _ _ h (hP acc e (parseRecord_entry_wf hpr) hacc)

theorem cpioOpen_wf {s : Bytes} {c : CpioEntryContainer}
    (h : cpioOpen s = some c) : ∀ e ∈ c.items, wfEntry e := by
  refine openLoop_inv (fun c => ∀ e ∈ c.items, wfEntry e)
    ?_ _ _ _ _ _ h (by simp)
  intro c' v hv hc' x hx
  rcases mem_items_setItem hx with h' | h'
  · exact hc' x h'
  · subst h'; exact hv

theorem cpioOpen_nodup {s : Bytes} {c : CpioEntryContainer}
    (h : cpioOpen s = some c) : c.names.Nodup := by
  refine openLoop_inv (fun c => c.names.Nodup)
    ?_ _ _ _ _ _ h (by simp [CpioEntryContainer.names])
  intro c' v _ hc'
  exact nodup_names_setItem v hc'

/-- Rebuilding a container from entries with fresh, distinct names just
appends them. -/
theorem foldl_setItem_items (es : List CpioEntry) :
    ∀ c : CpioEntryContainer, (c.names ++ es.map (·.name)).Nodup →
      (es.foldl CpioEntryContainer.setItem c).items = c.items ++ es := by
  induction es with
  | nil => intro c _; simp
  | cons e es ih =>
    intro c hnd
    simp only [List.foldl_cons]
    have hni : e.name ∉ c.names := by
      rw [List.nodup_append] at hnd
      intro hmem
      exact hnd.2.2 hmem (by simp)
    have hset : (c.setItem e).items = c.items ++ [e] := by
      simp only [CpioEntryContainer.setItem, if_neg hni]
    have hnames : (c.setItem e).names = c.names ++ [e.name] := by
      rw [names_setItem, if_neg hni]
    rw [ih (c.setItem e) (by rw [hnames, List.append_assoc]; simpa using hnd)]
    rw [hset, List.append_assoc]
    rfl

/-- Byte-level round trip for any well-formed container with distinct
names: writing and re-opening reproduces the entry list exactly. -/
theorem cpioOpen_cpioWrite {c : CpioEntryContainer}
    (hwf : ∀ e ∈ c.items, wfEntry e) (hnd : c.names.Nodup) :
    ∃ c', cpioOpen (cpioWrite c) = some c' ∧ c'.items = c.items := by
  unfold cpioOpen cpioWrite
  rw [openLoop_writeLoop c.items 0 {} _ hwf
    (by have := writeLoop_length c.items 0; omega)]
  refine ⟨_, rfl, ?_⟩
  have h0 : (({} : CpioEntryContainer).names ++ c.items.map (·.name)).Nodup := by
    simpa [CpioEntryContainer.names] using hnd
  have := foldl_setItem_items c.items {} h0
  simpa using this

/-! Lemmas about `parentStr`, `lookup` and the mutation operations. -/

theorem splitOnP_go_no_match {P : Nat → Bool} :
    ∀ (l acc : Bytes), (∀ b ∈ l, P b = false) →
      List.splitOnP.go P l acc = [acc.reverse ++ l] := by
  intro l
  induction l with
  | nil => intro acc _; simp [List.splitOnP.go]
  | cons a t ih =>
    intro acc hl
    rw [List.splitOnP.go]
    rw [ih (a :: acc) (fun b hb => hl b (by simp [hb]))]
    rw [hl a (by simp)]
    simp

theorem splitOn_no_sep {p : Bytes} (h : ∀ b ∈ p, b ≠ 47) :
    List.splitOn 47 p = [p] := by
  show List.splitOnP (· == 47) p = [p]
  unfold List.splitOnP
  rw [splitOnP_go_no_match p [] (fun b hb => by simpa using h b hb)]
  simp

theorem parentStr_no_sep {p : Bytes} (h : ∀ b ∈ p, b ≠ 47) :
    parentStr p = [46] := by
  unfold parentStr
  rw [splitOn_no_sep h]
  have hle : (List.filter (fun s => decide (s ≠ [] ∧ s ≠ [46])) [p]).length ≤ 1 := by
    rw [List.filter_singleton]
    cases decide (p ≠ [] ∧ p ≠ [46]) <;> simp
  show (if (List.filter (fun s => decide (s ≠ [] ∧ s ≠ [46])) [p]).length ≤ 1
      then ([46] : Bytes)
      else List.intercalate [47]
        ((List.filter (fun s => decide (s ≠ [] ∧ s ≠ [46])) [p]).dropLast)) = [46]
  rw [if_pos hle]

theorem add_entry_parent_missing (c : CpioEntryContainer) (fi : FileInfo)
    (p : Bytes) (h : parentStr p ∉ c.names) :
    c.add_entry fi p = some (false, c) := by
  by_cases he : fi.path_exists = false
  · rw [CpioEntryContainer.add_entry, if_pos he]
  · rw [CpioEntryContainer.add_entry, if_neg he, if_pos h]

theorem lookup_eq_none {c : CpioEntryContainer} {p : Bytes} (h : p ∉ c.names) :
    c.lookup p = none := by
  rw [CpioEntryContainer.lookup, List.find?_eq_none]
  intro x hx
  simp only [decide_eq_true_eq]
  intro hn
  exact h (by simpa [CpioEntryContainer.names, ← hn] using List.mem_map_of_mem (·.name) hx)

theorem find?_map_replace {v : CpioEntry} :
    ∀ l : List CpioEntry, v.name ∈ l.map (·.name) →
      (l.map (fun e => if e.name = v.name then v else e)).find?
        (fun e => decide (e.name = v.name)) = some v := by
  intro l
  induction l with
  | nil => simp
  | cons a t ih =>
    intro hmem
    by_cases hn : a.name = v.name
    · simp only [List.map_cons, if_pos hn]
      rw [List.find?_cons_of_pos _ (by simp)]
    · simp only [List.map_cons, if_neg hn]
      rw [List.find?_cons_of_neg _ (by simp [hn])]
      refine ih ?_
      simp only [List.map_cons, List.mem_cons] at hmem
      rcases hmem with h' | h'
      · exact absurd h'.symm hn
      · exact h'

theorem lookup_setItem_self (c : CpioEntryContainer) (v : CpioEntry) :
    (c.setItem v).lookup v.name = some v := by
  unfold CpioEntryContainer.setItem CpioEntryContainer.lookup
  split
  · rename_i hmem
    exact find?_map_replace c.items hmem
  · rename_i hmem
    rw [List.find?_append]
    have hnone : List.find? (fun e => decide (e.name = v.name)) c.items = none := by
      have := @lookup_eq_none c v.name
        (by simpa [CpioEntryContainer.names] using hmem)
      simpa [CpioEntryContainer.lookup] using this
    rw [hnone]
    simp

/-- The inode bookkeeping invariant: `_inode_next` strictly exceeds
every inode present. -/
def inodeInv (c : CpioEntryContainer) : Prop :=
  ∀ e ∈ c.items, e.inode < c.inode_next

instance (c : CpioEntryContainer) : Decidable (inodeInv c) := by
  unfold inodeInv; infer_instance

theorem setItem_inodeInv {c : CpioEntryContainer} (v : CpioEntry)
    (h : inodeInv c) : inodeInv (c.setItem v) := by
  intro x hx
  rcases mem_items_setItem hx with h' | h'
  · calc x.inode < c.inode_next := h x h'
    _ ≤ (c.setItem v).inode_next := le_max_left _ _
  · calc x.inode < v.inode + 1 := by rw [h']; omega
    _ ≤ (c.setItem v).inode_next := le_max_right _ _

theorem setItem_inode_next_le (c : CpioEntryContainer) (v : CpioEntry) :
    c.inode_next ≤ (c.setItem v).inode_next := le_max_left _ _

/-- Successful `add_entry` characterization: the container gained (via
`__setitem__`) one entry named `archive_path` whose inode and device are
taken from the overwritten entry when the path was present, and are the
fresh inode / zero device otherwise. -/
theorem add_entry_ok {c c' : CpioEntryContainer} {fi : FileInfo} {p : Bytes}
    (h : c.add_entry fi p = some (true, c')) :
    ∃ e : CpioEntry, c' = c.setItem e ∧ e.name = p ∧
      e.inode = (match c.lookup p with
        | some prev => prev.inode
        | none => c.inode_next) ∧
      e.dev = (match c.lookup p with
        | some prev => prev.dev
        | none => List.replicate 32 48) := by
  unfold CpioEntryContainer.add_entry at h
  split at h
  · exact absurd h (by simp)
  · split at h
    · exact absurd h (by simp)
    · split at h
      · rename_i prev heq
        split at h
        · simp only [Option.some.injEq, Prod.mk.injEq, true_and] at h
          exact ⟨_, h.symm, rfl, rfl, rfl⟩
        · split at h
          · simp only [Option.some.injEq, Prod.mk.injEq, true_and] at h
            exact ⟨_, h.symm, rfl, rfl, rfl⟩
          · split at h
            · simp only [Option.some.injEq, Prod.mk.injEq, true_and] at h
              exact ⟨_, h.symm, rfl, rfl, rfl⟩
            · exact absurd h (by simp)
      · rename_i heq
        split at h
        · simp only [Option.some.injEq, Prod.mk.injEq, true_and] at h
          exact ⟨_, h.symm, rfl, rfl, rfl⟩
        · split at h
          · simp only [Option.some.injEq, Prod.mk.injEq, true_and] at h
            exact ⟨_, h.symm, rfl, rfl, rfl⟩
          · split at h
            · simp only [Option.some.injEq, Prod.mk.injEq, true_and] at h
              exact ⟨_, h.symm, rfl, rfl, rfl⟩
            · exact absurd h (by simp)

/-! Characterization of `modify_entry` and `delete_entry`. -/

/-- The entry that a successful `modify_entry` leaves at the path, field
by field: data and size updated together only for regular files, uid /
gid / mode updated whenever provided. -/
def modifySpec (e : CpioEntry) (update_uid update_gid update_mode : Option Nat)
    (update_data : Option Bytes) : CpioEntry :=
  let dataUpd := update_data.isSome && decide (e.file_type = FileTypes.regular)
  { e with
    data := if dataUpd then update_data.getD e.data else e.data,
    size := if dataUpd then (update_data.getD e.data).length else e.size,
    uid := update_uid.getD e.uid,
    gid := update_gid.getD e.gid,
    mode := update_mode.getD e.mode }

theorem modify_entry_found (c : CpioEntryContainer) (p : Bytes) (e : CpioEntry)
    (uu ug um : Option Nat) (ud : Option Bytes) (hl : c.lookup p = some e) :
    c.modify_entry p uu ug um ud =
      ((ud.isSome && decide (e.file_type = FileTypes.regular)) ||
         uu.isSome || ug.isSome || um.isSome,
       { items := c.items.map
           (fun x => if x.name = p then modifySpec e uu ug um ud else x),
         inode_next := c.inode_next }) := by
  unfold CpioEntryContainer.modify_entry
  rw [hl]
  cases ud with
  | none =>
    cases uu <;> cases ug <;> cases um <;> simp [modifySpec]
  | some d =>
    by_cases hr : e.file_type = FileTypes.regular <;>
      cases uu <;> cases ug <;> cases um <;> simp [modifySpec, hr]

theorem modify_entry_inode_next (c : CpioEntryContainer) (p : Bytes)
    (uu ug um : Option Nat) (ud : Option Bytes) :
    ((c.modify_entry p uu ug um ud).2).inode_next = c.inode_next := by
  unfold CpioEntryContainer.modify_entry
  cases c.lookup p <;> rfl

theorem modifySpec_inode (e : CpioEntry) (uu ug um : Option Nat) (ud : Option Bytes) :
    (modifySpec e uu ug um ud).inode = e.inode := rfl

theorem lookup_mem {c : CpioEntryContainer} {p : Bytes} {e : CpioEntry}
    (h : c.lookup p = some e) : e ∈ c.items :=
  List.mem_of_find?_eq_some h

theorem delete_entry_inode_next (c : CpioEntryContainer) (p : Bytes) :
    ((c.delete_entry p).2).inode_next = c.inode_next := by
  unfold CpioEntryContainer.delete_entry
  split <;> rfl

/-! A trace of mutation operations on a container, for the inode
non-reuse property. -/

inductive ContainerOp where
  | addOp (fi : FileInfo) (p : Bytes)
  | delOp (p : Bytes)
  | modOp (p : Bytes) (uu ug um : Option Nat) (ud : Option Bytes)

/-- The container state after one operation (a raised
`NotImplementedError` in `add_entry` leaves the container as it was,
since the exception fires before the insertion). -/
def applyOp (c : CpioEntryContainer) : ContainerOp → CpioEntryContainer
  | .addOp fi p =>
    match c.add_entry fi p with
    | some (_, c') => c'
    | none => c
  | .delOp p => (c.delete_entry p).2
  | .modOp p uu ug um ud => (c.modify_entry p uu ug um ud).2

def applyOps (c : CpioEntryContainer) (ops : List ContainerOp) : CpioEntryContainer :=
  ops.foldl applyOp c

/-- Any `add_entry` return leaves the container unchanged or inserts one
entry through `__setitem__`. -/
theorem add_entry_cases {c c' : CpioEntryContainer} {fi : FileInfo} {p : Bytes}
    {b : Bool} (h : c.add_entry fi p = some (b, c')) :
    c' = c ∨ ∃ e, c' = c.setItem e := by
  unfold CpioEntryContainer.add_entry at h
  split at h
  · left
    simp only [Option.some.injEq, Prod.mk.injEq] at h
    exact h.2.symm
  · split at h
    · left
      simp only [Option.some.injEq, Prod.mk.injEq] at h
      exact h.2.symm
    · split at h
      · split at h
        · right
          simp only [Option.some.injEq, Prod.mk.injEq, true_and] at h
          exact ⟨_, h.2.symm⟩
        · split at h
          · right
            simp only [Option.some.injEq, Prod.mk.injEq, true_and] at h
            exact ⟨_, h.2.symm⟩
          · split at h
            · right
              simp only [Option.some.injEq, Prod.mk.injEq, true_and] at h
              exact ⟨_, h.2.symm⟩
            · exact absurd h (by simp)
      · split at h
        · right
          simp only [Option.some.injEq, Prod.mk.injEq, true_and] at h
          exact ⟨_, h.2.symm⟩
        · split at h
          · right
            simp only [Option.some.injEq, Prod.mk.injEq, true_and] at h
            exact ⟨_, h.2.symm⟩
          · split at h
            · right
              simp only [Option.some.injEq, Prod.mk.injEq, true_and] at h
              exact ⟨_, h.2.symm⟩
            · exact absurd h (by simp)

theorem applyOp_inodeInv {c : CpioEntryContainer} (op : ContainerOp)
    (h : inodeInv c) : inodeInv (applyOp c op) := by
  cases op with
  | addOp fi p =>
    simp only [applyOp]
    cases ha : c.add_entry fi p with
    | none => exact h
    | some r =>
      obtain ⟨b, c'⟩ := r
      rcases add_entry_cases ha with h' | ⟨e, h'⟩
      · subst h'; exact h
      · subst h'; exact setItem_inodeInv e h
  | delOp p =>
    simp only [applyOp]
    unfold CpioEntryContainer.delete_entry
    split
    · intro x hx
      exact h x (List.mem_of_mem_filter hx)
    · exact h
  | modOp p uu ug um ud =>
    simp only [applyOp]
    cases hl : c.lookup p with
    | none =>
      unfold CpioEntryContainer.modify_entry
      rw [hl]
      exact h
    | some e0 =>
      rw [modify_entry_found c p e0 uu ug um ud hl]
      intro x hx
      simp only at hx
      rcases List.mem_map.mp hx with ⟨a, ha, hax⟩
      by_cases hn : a.name = p
      · rw [if_pos hn] at hax
        rw [← hax]
        show (modifySpec e0 uu ug um ud).inode < c.inode_next
        rw [modifySpec_inode]
        exact h e0 (lookup_mem hl)
      · rw [if_neg hn] at hax
        rw [← hax]
        exact h a ha

theorem applyOp_inode_next_le (c : CpioEntryContainer) (op : ContainerOp) :
    c.inode_next ≤ (applyOp c op).inode_next := by
  cases op with
  | addOp fi p =>
    simp only [applyOp]
    cases ha : c.add_entry fi p with
    | none => exact le_refl _
    | some r =>
      obtain ⟨b, c'⟩ := r
      rcases add_entry_cases ha with h' | ⟨e, h'⟩
      · subst h'; exact le_refl _
      · subst h'; exact setItem_inode_next_le c e
  | delOp p =>
    simp only [applyOp]
    rw [delete_entry_inode_next]
  | modOp p uu ug um ud =>
    simp only [applyOp]
    rw [modify_entry_inode_next]

theorem applyOps_inodeInv {c : CpioEntryContainer} (ops : List ContainerOp)
    (h : inodeInv c) : inodeInv (applyOps c ops) := by
  induction ops generalizing c with
  | nil => exact h
  | cons op ops ih => exact ih (applyOp_inodeInv op h)

theorem applyOps_inode_next_le (c : CpioEntryContainer) (ops : List ContainerOp) :
    c.inode_next ≤ (applyOps c ops).inode_next := by
  induction ops generalizing c with
  | nil => exact le_refl _
  | cons op ops ih =>
    calc c.inode_next ≤ (applyOp c op).inode_next := applyOp_inode_next_le c op
    _ ≤ (applyOps (applyOp c op) ops).inode_next := ih (applyOp c op)

theorem applyOps_take_drop (c : CpioEntryContainer) (ops : List ContainerOp) (i : Nat) :
    applyOps c ops = applyOps (applyOps c (ops.take i)) (ops.drop i) := by
  unfold applyOps
  rw [← List.foldl_append, List.take_append_drop]

/-! Alignment of the write-side byte counter. -/

theorem pad_aligned (x : Nat) : (x + padLen x) % 4 = 0 := by
  unfold padLen
  omega

theorem writeCkLoop_aligned (es : List CpioEntry) :
    ∀ off : Nat, ∀ n ∈ writeCkLoop off es, n % 4 = 0 := by
  induction es with
  | nil =>
    intro off n hn
    simp only [writeCkLoop, List.mem_singleton] at hn
    subst hn
    exact pad_aligned _
  | cons e es ih =>
    intro off n hn
    simp only [writeCkLoop, List.mem_cons] at hn
    rcases hn with h1 | h2 | h3
    · subst h1; exact pad_aligned _
    · subst h2
      exact pad_aligned _
    · exact ih _ n h3

/-! Concrete fixtures used by the witnesses and the counterexample. -/

/-- The path bytes of `"foo"`. -/
def fooPath : Bytes := [102, 111, 111]

/-- A directory entry named `"."` (mode `0o755`). -/
def dotEntry : CpioEntry :=
  { name := [46], data := [], mode := 0o755, file_type := .directory,
    uid := 0, gid := 0, number_of_links := 2, modification_time := 0,
    size := 0, has_crc := false, inode := 0, dev := List.replicate 32 48 }

/-- A container holding only the `"."` directory. -/
def dotContainer : CpioEntryContainer := { items := [dotEntry], inode_next := 1 }

/-- A regular source file as `add_entry` sees it: it exists, `st_mode`
is `0o100644` (type bits included, as `stat` reports), contents
`b"hi"`. -/
def regularFileInfo : FileInfo :=
  { path_exists := true, st_mode := 0o100644, st_uid := 0, st_gid := 0,
    st_nlink := 1, st_mtime := 0, is_file := true, is_symlink := false,
    is_dir := false, read_bytes := [104, 105], readlink := [] }

/-- The entry `add_entry regularFileInfo fooPath` creates in
`dotContainer`. -/
def fooAdded : CpioEntry :=
  { name := fooPath, data := [104, 105], mode := 0o100644,
    file_type := .regular, uid := 0, gid := 0, number_of_links := 1,
    modification_time := 0, size := 2, has_crc := false, inode := 1,
    dev := List.replicate 32 48 }

/-- A well-formed parsed-style entry used for round-trip witnesses. -/
def rtEntry : CpioEntry :=
  { name := [97], data := [104, 105], mode := 0o644, file_type := .regular,
    uid := 0, gid := 0, number_of_links := 1, modification_time := 5,
    size := 2, has_crc := false, inode := 0, dev := List.replicate 32 48 }

def rtContainer : CpioEntryContainer := { items := [rtEntry], inode_next := 1 }

/-- An entry with `has_crc = true` and payload summing to 257. -/
def crcSample : CpioEntry :=
  { name := [99], data := [255, 2], mode := 0o600, file_type := .regular,
    uid := 0, gid := 0, number_of_links := 1, modification_time := 0,
    size := 2, has_crc := true, inode := 3, dev := List.replicate 32 48 }

/-- An entry named `"a"` with inode 1, later deleted in the C10 trace. -/
def aEntry : CpioEntry :=
  { name := [97], data := [], mode := 0o644, file_type := .regular,
    uid := 0, gid := 0, number_of_links := 1, modification_time := 0,
    size := 0, has_crc := false, inode := 1, dev := List.replicate 32 48 }

def c10Start : CpioEntryContainer := { items := [dotEntry, aEntry], inode_next := 2 }

/-- The entry the post-delete add creates (inode 2, never 1 again). -/
def fooReadded : CpioEntry :=
  { name := fooPath, data := [104, 105], mode := 0o100644,
    file_type := .regular, uid := 0, gid := 0, number_of_links := 1,
    modification_time := 0, size := 2, has_crc := false, inode := 2,
    dev := List.replicate 32 48 }

def c10After : CpioEntryContainer := { items := [dotEntry, fooReadded], inode_next := 3 }

/-! The claims. -/

/-- Claim C1: for any container produced by `open`, `open(write(E))`
yields a container equal to `E` entry-for-entry and in the same order in
every stored field (name, data, mode, file_type, uid, gid, nlink, mtime,
size, inode, dev, and also has_crc); the checksum is not stored in
entries at all — it is recomputed deterministically at write time. -/
theorem claim_C1_roundtrip (s : Bytes) (c : CpioEntryContainer)
    (h : cpioOpen s = some c) :
    ∃ c', cpioOpen (cpioWrite c) = some c' ∧ c'.items = c.items :=
  cpioOpen_cpioWrite (cpioOpen_wf h) (cpioOpen_nodup h)

set_option maxRecDepth 100000 in
/-- Witness for C1 at a concrete one-entry archive stream. -/
theorem claim_C1_witness :
    ∃ c', cpioOpen (cpioWrite rtContainer) = some c' ∧
      c'.items = rtContainer.items :=
  claim_C1_roundtrip (cpioWrite rtContainer) rtContainer (by decide)

/-- Claim C2 counterexample: a successful `add_entry` stores the stat
`st_mode` unmasked, so the resulting entry's mode carries the regular
file-type bit `0o100000` — mode is not permission-bits-only after add. -/
theorem claim_C2_counterexample :
    dotContainer.add_entry regularFileInfo fooPath =
      some (true, { items := [dotEntry, fooAdded], inode_next := 2 }) ∧
    fooAdded.mode &&& ModeMask.file_type = 0o100000 ∧
    (0o100000 : Nat) ≠ 0 := by
  refine ⟨by decide, by decide, by decide⟩

/-- Claim C2 amended: entries produced by parsing carry only permission
bits in `mode` (the parser masks with `ModeMask.permissions`), and the
writer reconstitutes the file-type bits from `file_type` by OR-ing them
into the mode field; `add_entry` and `modify_entry`, however, store the
caller-supplied mode unmasked. -/
theorem claim_C2_amended (s : Bytes) (c : CpioEntryContainer)
    (h : cpioOpen s = some c) :
    ∀ e ∈ c.items, e.mode &&& ModeMask.file_type = 0 ∧
      (entryHeader e).c_mode = toHex8 (e.mode ||| e.file_type.value) := by
  intro e he
  refine ⟨?_, rfl⟩
  have hm : e.mode < 4096 := (cpioOpen_wf h e he).2.1
  show e.mode &&& 61440 = 0
  exact and_61440_of_lt hm

set_option maxRecDepth 100000 in
/-- Witness for the amended C2 at a concrete parsed archive entry. -/
theorem claim_C2_amended_witness :
    rtEntry.mode &&& ModeMask.file_type = 0 ∧
    (entryHeader rtEntry).c_mode = toHex8 (rtEntry.mode ||| rtEntry.file_type.value) :=
  claim_C2_amended (cpioWrite rtContainer) rtContainer (by decide) rtEntry (by decide)

/-- Claim C3: the written checksum field is exactly eight ASCII `'0'`
characters when `has_crc` is false; when `has_crc` is true it is the sum
of all payload bytes truncated to 32 bits, rendered as lowercase
zero-padded hex of exactly 8 characters. -/
theorem claim_C3_checksum (e : CpioEntry) :
    (e.has_crc = false → (entryHeader e).c_check = List.replicate 8 48) ∧
    (e.has_crc = true →
      parseHex ((entryHeader e).c_check) = some (sumBytes e.data % 4294967296) ∧
      ((entryHeader e).c_check).length = 8 ∧
      ∀ b ∈ (entryHeader e).c_check, isHexLower b) := by
  constructor
  · intro hc
    simp [entryHeader, hc]
  · intro hc
    simp only [entryHeader, hc, if_pos]
    refine ⟨?_, toHex8_length (and_mask32_lt _), fun b hb => toHex8_mem hb⟩
    rw [parseHex_toHex8, and_mask32_eq_mod]

/-- Witness for C3: a no-CRC entry writes `"00000000"`, a CRC entry with
payload sum 257 writes its 8 lowercase hex digits. -/
theorem claim_C3_witness :
    (entryHeader rtEntry).c_check = List.replicate 8 48 ∧
    parseHex ((entryHeader crcSample).c_check) =
      some (sumBytes crcSample.data % 4294967296) ∧
    ((entryHeader crcSample).c_check).length = 8 ∧
    ∀ b ∈ (entryHeader crcSample).c_check, isHexLower b :=
  ⟨(claim_C3_checksum rtEntry).1 rfl, (claim_C3_checksum crcSample).2 rfl⟩

/-- Claim C4: adding any path whose computed parent is absent from the
container fails with a `False` return (no exception) and leaves the
container unchanged.  In particular this holds for `"a/b/c"` when
`"a/b"` is absent. -/
theorem claim_C4_parent_guard (c : CpioEntryContainer) (fi : FileInfo)
    (p : Bytes) (h : parentStr p ∉ c.names) :
    c.add_entry fi p = some (false, c) :=
  add_entry_parent_missing c fi p h

/-- Witness for C4: `"a/b/c"` has parent `"a/b"`, absent from
`dotContainer`, so the add fails and the container is unchanged. -/
theorem claim_C4_witness :
    parentStr [97, 47, 98, 47, 99] = [97, 47, 98] ∧
    dotContainer.add_entry regularFileInfo [97, 47, 98, 47, 99] =
      some (false, dotContainer) :=
  ⟨by decide,
   claim_C4_parent_guard dotContainer regularFileInfo [97, 47, 98, 47, 99] (by decide)⟩

/-- Claim C5: a successful add at an existing path keeps the prior
entry's inode and device field; a successful add at a fresh path
allocates the container's next free inode and an ASCII-zero-filled
device field. -/
theorem claim_C5_overwrite_identity (c c' : CpioEntryContainer)
    (fi : FileInfo) (p : Bytes) (h : c.add_entry fi p = some (true, c')) :
    (∀ e0, c.lookup p = some e0 →
      ∃ e', c'.lookup p = some e' ∧ e'.inode = e0.inode ∧ e'.dev = e0.dev) ∧
    (c.lookup p = none →
      ∃ e', c'.lookup p = some e' ∧ e'.inode = c.inode_next ∧
        e'.dev = List.replicate 32 48) := by
  obtain ⟨e, hc', hname, hinode, hdev⟩ := add_entry_ok h
  constructor
  · intro e0 hl
    refine ⟨e, ?_, ?_, ?_⟩
    · rw [hc', ← hname]
      exact lookup_setItem_self c e
    · rw [hinode, hl]
    · rw [hdev, hl]
  · intro hl
    refine ⟨e, ?_, ?_, ?_⟩
    · rw [hc', ← hname]
      exact lookup_setItem_self c e
    · rw [hinode, hl]
    · rw [hdev, hl]

/-- Witness for C5 (fresh-path branch): adding `"foo"` to
`dotContainer` allocates inode 1 (= `inode_next`) and the zero device. -/
theorem claim_C5_witness :
    ∃ e', ({ items := [dotEntry, fooAdded], inode_next := 2 } :
        CpioEntryContainer).lookup fooPath = some e' ∧
      e'.inode = dotContainer.inode_next ∧
      e'.dev = List.replicate 32 48 :=
  (claim_C5_overwrite_identity dotContainer
    { items := [dotEntry, fooAdded], inode_next := 2 }
    regularFileInfo fooPath (by decide)).2 (by decide)

/-- Claim C6: after a successful add of a path not previously present,
in a container satisfying the inode bookkeeping invariant, the next free
inode strictly exceeds every inode of every entry in the container. -/
theorem claim_C6_inode_monotonic (c c' : CpioEntryContainer)
    (fi : FileInfo) (p : Bytes) (hinv : inodeInv c) (_hnew : p ∉ c.names)
    (hadd : c.add_entry fi p = some (true, c')) : inodeInv c' := by
  obtain ⟨e, hc', -, -, -⟩ := add_entry_ok hadd
  rw [hc']
  exact setItem_inodeInv e hinv

/-- Witness for C6 at the concrete fresh-path add. -/
theorem claim_C6_witness :
    inodeInv { items := [dotEntry, fooAdded], inode_next := 2 } :=
  claim_C6_inode_monotonic dotContainer
    { items := [dotEntry, fooAdded], inode_next := 2 }
    regularFileInfo fooPath (by decide) (by decide) (by decide)

/-- Claim C7: for a path present in the container, `modify_entry`
applies each provided field independently — data (with size) only for
regular files, uid/gid/mode unconditionally — and returns whether at
least one update was applied (a data update on a non-regular entry is
rejected and does not count). -/
theorem claim_C7_modify (c : CpioEntryContainer) (p : Bytes) (e : CpioEntry)
    (uu ug um : Option Nat) (ud : Option Bytes) (hl : c.lookup p = some e) :
    c.modify_entry p uu ug um ud =
      ((ud.isSome && decide (e.file_type = FileTypes.regular)) ||
         uu.isSome || ug.isSome || um.isSome,
       { items := c.items.map
           (fun x => if x.name = p then modifySpec e uu ug um ud else x),
         inode_next := c.inode_next }) :=
  modify_entry_found c p e uu ug um ud hl

/-- Witness for C7: setting only the mode of the `"."` entry. -/
theorem claim_C7_witness :
    dotContainer.modify_entry [46] none none (some 0o600) none =
      (((none : Option Bytes).isSome &&
          decide (dotEntry.file_type = FileTypes.regular)) ||
        (none : Option Nat).isSome || (none : Option Nat).isSome ||
        (some (0o600 : Nat)).isSome,
       { items := dotContainer.items.map
           (fun x => if x.name = [46] then
              modifySpec dotEntry none none (some 0o600) none else x),
         inode_next := dotContainer.inode_next }) :=
  claim_C7_modify dotContainer [46] dotEntry none none (some 0o600) none (by decide)

/-- Claim C8: during `write`, after each record component is encoded
(header plus NUL-terminated name with its padding, payload with its
padding, and the trailer record), the cumulative `bytes_written` counter
is a multiple of 4. -/
theorem claim_C8_alignment (c : CpioEntryContainer) (n : Nat)
    (hn : n ∈ writeCheckpoints c) : n % 4 = 0 :=
  writeCkLoop_aligned c.items 0 n hn

/-- Witness for C8: the first checkpoint of the one-entry archive. -/
theorem claim_C8_witness :
    (112 : Nat) ∈ writeCheckpoints rtContainer ∧ (112 : Nat) % 4 = 0 :=
  ⟨by decide, claim_C8_alignment rtContainer 112 (by decide)⟩

/-- Claim C9: a top-level path (no `/` separator) has computed parent
`"."`, so adding it fails unless the container holds an entry literally
named `"."`. -/
theorem claim_C9_top_level (c : CpioEntryContainer) (fi : FileInfo)
    (p : Bytes) (hsep : ∀ b ∈ p, b ≠ 47) (hdot : [46] ∉ c.names) :
    parentStr p = [46] ∧ c.add_entry fi p = some (false, c) :=
  ⟨parentStr_no_sep hsep,
   add_entry_parent_missing c fi p
     (by rw [parentStr_no_sep hsep]; exact hdot)⟩

/-- Witness for C9: adding `"foo"` to an empty container fails. -/
theorem claim_C9_witness :
    parentStr fooPath = [46] ∧
    CpioEntryContainer.add_entry {} regularFileInfo fooPath =
      some (false, {}) :=
  claim_C9_top_level {} regularFileInfo fooPath (by decide) (by decide)

/-- Claim C10: inodes are never reused.  Delete keeps the next-free
counter, which is monotone along any operation sequence, so an add of a
fresh path after any sequence of operations allocates an inode strictly
greater than the inode of any entry present at any earlier point of the
trace — including entries deleted meanwhile. -/
theorem claim_C10_inode_never_reused (c : CpioEntryContainer)
    (ops : List ContainerOp) (i : Nat) (e : CpioEntry) (fi : FileInfo)
    (p : Bytes) (c' : CpioEntryContainer) (hinv : inodeInv c)
    (hpast : e ∈ (applyOps c (ops.take i)).items)
    (hnew : p ∉ (applyOps c ops).names)
    (hadd : (applyOps c ops).add_entry fi p = some (true, c')) :
    ∃ e', c'.lookup p = some e' ∧ e.inode < e'.inode := by
  obtain ⟨ea, hc', hname, hinode, -⟩ := add_entry_ok hadd
  refine ⟨ea, by rw [hc', ← hname]; exact lookup_setItem_self _ ea, ?_⟩
  have h1 : e.inode < (applyOps c (ops.take i)).inode_next :=
    applyOps_inodeInv (ops.take i) hinv e hpast
  have h2 : (applyOps c (ops.take i)).inode_next ≤ (applyOps c ops).inode_next := by
    rw [applyOps_take_drop c ops i]
    exact applyOps_inode_next_le _ _
  have h3 : ea.inode = (applyOps c ops).inode_next := by
    rw [hinode, lookup_eq_none hnew]
  omega

/-- Witness for C10: delete `"a"` (inode 1), then add `"foo"`; the new
entry gets inode 2 > 1. -/
theorem claim_C10_witness :
    ∃ e', c10After.lookup fooPath = some e' ∧ aEntry.inode < e'.inode :=
  claim_C10_inode_never_reused c10Start [ContainerOp.delOp [97]] 0 aEntry
    regularFileInfo fooPath c10After (by decide) (by decide) (by decide) (by decide)

end CpioTools
